import Mathlib

/-!
Shallow embedding of `volume-notifier-rs` (`src/main.rs`) and proofs about it.

Conventions used throughout:
* Rust `panic!` / `expect` failures are modelled by `none` (or an `Except.error`)
  in the return type of the embedded function.
* File contents are modelled as `String`s (the record file holds text).
* Machine integers: Rust `i32` values are modelled as `Int` with explicit range
  conditions where they matter; `u32` arithmetic wraps modulo `2 ^ 32` where the
  source can wrap (release-profile semantics of `+`), and `usize as u32` casts
  are taken modulo `2 ^ 32`.
-/

/-- Whitespace predicate used both for `str::trim` and for the regex classes
`\s` / `\S` (ASCII fragment of Unicode whitespace; all inputs of interest are
ASCII). -/
def isWs (c : Char) : Bool :=
  c = ' ' || c = '\t' || c = '\n' || c = '\r' || c = Char.ofNat 11 || c = Char.ofNat 12

/-- Models Rust `str::trim`: drop whitespace from both ends. -/
def rustTrim (cs : List Char) : List Char :=
  ((cs.dropWhile isWs).reverse.dropWhile isWs).reverse

/-- Numeric value of an ASCII digit character. -/
def charToDigit (c : Char) : Nat := c.toNat - 48

/-- ASCII digit character of a value below 10. -/
def digitToChar : Nat → Char
  | 0 => '0' | 1 => '1' | 2 => '2' | 3 => '3' | 4 => '4'
  | 5 => '5' | 6 => '6' | 7 => '7' | 8 => '8' | _ => '9'

/-- Decimal value of a digit string (big-endian), as used by Rust's integer
`FromStr` once the digits have been validated. -/
def digitsVal (cs : List Char) : Nat :=
  cs.foldl (fun a c => a * 10 + charToDigit c) 0

/-- Parse a nonempty all-digit character list to its value; `none` on anything
else.  Helper for the sign-aware integer parsers below. -/
def parseDigits (cs : List Char) : Option Nat :=
  if cs ≠ [] ∧ cs.all Char.isDigit then some (digitsVal cs) else none

/-- Models Rust `str::parse::<i32>()`: optional sign, decimal digits, value
within `i32` bounds (`-2^31 ..= 2^31 - 1`); anything else is `Err`. -/
def parse_i32 (s : String) : Option Int :=
  match s.data with
  | [] => none
  | c :: rest =>
    if c = '-' then
      (parseDigits rest).bind fun v =>
        if v ≤ 2 ^ 31 then some (-(v : Int)) else none
    else
      (parseDigits (if c = '+' then rest else c :: rest)).bind fun v =>
        if v < 2 ^ 31 then some ((v : Nat) : Int) else none

/-- Models Rust `str::parse::<u32>()`: digits only (after optional `+`),
value below `2 ^ 32`. -/
def parse_u32 (cs : List Char) : Option Nat :=
  (parseDigits cs).bind fun v => if v < 2 ^ 32 then some v else none

/-- Fuel-driven digit expansion (most significant digit first); the fuel
makes the recursion structural so that concrete values evaluate inside the
kernel. -/
def natToCharsAux : Nat → Nat → List Char
  | 0, _ => []
  | fuel + 1, n =>
    if n = 0 then [] else natToCharsAux fuel (n / 10) ++ [digitToChar (n % 10)]

/-- Decimal digit characters of a natural number (models the `{}` formatting
of a nonnegative integer). -/
def natToChars (n : Nat) : List Char :=
  if n = 0 then ['0'] else natToCharsAux (n + 1) n

/-- Models Rust `format!("\x7b\x7d", n)` for an `i32` value `n`. -/
def intToString (n : Int) : String :=
  if n < 0 then String.mk ('-' :: natToChars n.natAbs) else String.mk (natToChars n.toNat)

/-- Embeds `read_db` (src/main.rs:72-82): read the whole record, trim it;
empty means no identity (`some none`); otherwise the trimmed text must parse
as an `i32` (`some (some v)`), and a parse failure is the
`expect("Failed to parse DB")` panic (`none`). -/
def read_db (contents : String) : Option (Option Int) :=
  let trimmed := String.mk (rustTrim contents.data)
  if trimmed.data.length = 0 then some none
  else
    match parse_i32 trimmed with
    | some v => some (some v)
    | none => none

/-- Embeds `write_db` (src/main.rs:84-88): truncate the record and write the
decimal text of the identifier; the result is the new file content. -/
def write_db (contents : Int) : String :=
  intToString contents

/-- Embeds `get_icon` (src/main.rs:116-125).  The Rust `match` arms are
`0`, `1..33`, `33..66`, `_` on a `u32`. -/
def get_icon (mutestr : String) (percent : Nat) : String :=
  if mutestr = "Mute: yes" then "audio-volume-muted"
  else if percent = 0 then "audio-volume-muted"
  else if 1 ≤ percent ∧ percent < 33 then "audio-volume-low"
  else if 33 ≤ percent ∧ percent < 66 then "audio-volume-medium"
  else "audio-volume-high"

/-!
Regex embedding.  `parse_volume` uses the fixed pattern

    \S+: [0-9]+ / \s*([0-9]+)% / -?[0-9.]+ dB

over `regex::Regex::captures_iter`.  The `regex` crate uses leftmost-first
match semantics with greedy quantifiers; for this pattern (a plain sequence of
literals and greedy single-character-class repetitions) those semantics are
exactly "try each start position left to right; at each quantifier prefer the
longest repetition count, backtracking downward".  The embedding below
implements precisely that.
-/

/-- One regex item of the volume pattern: a literal, a greedy one-or-more /
zero-or-more / zero-or-one repetition of a character class, or the single
capturing group (a greedy one-or-more digit class). -/
inductive RItem where
  | lit : List Char → RItem
  | plusCls : (Char → Bool) → RItem
  | starCls : (Char → Bool) → RItem
  | optCls : (Char → Bool) → RItem
  | grp : (Char → Bool) → RItem

/-- First `some` result of `f` over the candidate list, in order. -/
def tryKs (f : Nat → Option α) : List Nat → Option α
  | [] => none
  | k :: ks =>
    match f k with
    | some r => some r
    | none => tryKs f ks

/-- Greedy candidate repetition counts `mx, mx-1, ..., lo`. -/
def greedyKs (mx lo : Nat) : List Nat :=
  (List.range (mx + 1 - lo)).map (fun i => mx - i)

/-- Match a sequence of items at the start of `cs`, returning the matched
characters and the capture-group characters.  Greedy with backtracking:
longest repetition first. -/
def matchItems : List RItem → List Char → Option (List Char × List Char)
  | [], _ => some ([], [])
  | RItem.lit l :: rest, cs =>
    if l.isPrefixOf cs then
      (matchItems rest (cs.drop l.length)).map (fun r => (l ++ r.1, r.2))
    else none
  | RItem.plusCls p :: rest, cs =>
    let mx := (cs.takeWhile p).length
    tryKs (fun k =>
      if 1 ≤ k ∧ k ≤ mx then
        (matchItems rest (cs.drop k)).map (fun r => (cs.take k ++ r.1, r.2))
      else none) (greedyKs mx 1)
  | RItem.starCls p :: rest, cs =>
    let mx := (cs.takeWhile p).length
    tryKs (fun k =>
      if k ≤ mx then
        (matchItems rest (cs.drop k)).map (fun r => (cs.take k ++ r.1, r.2))
      else none) (greedyKs mx 0)
  | RItem.optCls p :: rest, cs =>
    match cs with
    | c :: cs' =>
      if p c then
        match matchItems rest cs' with
        | some r => some (c :: r.1, r.2)
        | none => matchItems rest cs
      else matchItems rest cs
    | [] => matchItems rest []
  | RItem.grp p :: rest, cs =>
    let mx := (cs.takeWhile p).length
    tryKs (fun k =>
      if 1 ≤ k ∧ k ≤ mx then
        (matchItems rest (cs.drop k)).map (fun r => (cs.take k ++ r.1, cs.take k))
      else none) (greedyKs mx 1)

/-- The volume pattern `\S+: [0-9]+ / \s*([0-9]+)% / -?[0-9.]+ dB`
(src/main.rs:102). -/
def volPattern : List RItem :=
  [ RItem.plusCls (fun c => !isWs c),
    RItem.lit (": ".data),
    RItem.plusCls Char.isDigit,
    RItem.lit (" / ".data),
    RItem.starCls isWs,
    RItem.grp Char.isDigit,
    RItem.lit ("%".data),
    RItem.lit (" / ".data),
    RItem.optCls (fun c => c = '-'),
    RItem.plusCls (fun c => Char.isDigit c || c = '.'),
    RItem.lit (" dB".data) ]

/-- Leftmost match of the volume pattern in `cs`: the matched characters, the
capture, and the remainder of the input after the match. -/
def findMatch : List Char → Option (List Char × List Char × List Char)
  | [] =>
    match matchItems volPattern [] with
    | some r => some (r.1, r.2, [])
    | none => none
  | c :: cs' =>
    match matchItems volPattern (c :: cs') with
    | some r => some (r.1, r.2, (c :: cs').drop r.1.length)
    | none => findMatch cs'

/-- Successive non-overlapping matches (models `captures_iter`), with fuel;
every match of `volPattern` consumes at least one character, so fuel
`cs.length + 1` never runs out before the matches do. -/
def capturesAux : Nat → List Char → List (List Char × List Char)
  | 0, _ => []
  | fuel + 1, cs =>
    match findMatch cs with
    | none => []
    | some (m, cap, rest) => (m, cap) :: capturesAux fuel rest

/-- All `(full match, capture)` pairs of the volume pattern in `cs`. -/
def captures (cs : List Char) : List (List Char × List Char) :=
  capturesAux (cs.length + 1) cs

/-- Fold of `parse_volume`'s loop body over the matches: accumulate the
percentage total (wrapping `u32` addition) and the full-match list; a
percentage that fails `parse::<u32>()` is the `unwrap` panic (`none`). -/
def accCaps : List (List Char × List Char) → Nat → List (List Char) →
    Option (Nat × List (List Char))
  | [], total, ret => some (total, ret)
  | (full, pct) :: rest, total, ret =>
    match parse_u32 pct with
    | none => none
    | some v => accCaps rest ((total + v) % 2 ^ 32) (ret ++ [full])

/-- Embeds `parse_volume` (src/main.rs:101-114).  Returns the
integer-truncated average percentage and the list of full matches; `none`
models a panic (a failed `unwrap` on a percentage, or the division by zero
that Rust raises when no channel matched, via `ret.len() as u32 = 0`). -/
def parse_volume (vol : String) : Option (Nat × List String) :=
  match accCaps (captures vol.data) 0 [] with
  | none => none
  | some (total, ret) =>
    let n := ret.length % 2 ^ 32
    if n = 0 then none
    else some (total / n, ret.map (fun l => String.mk l))

/-!
Subprocess runner and orchestrator.
-/

/-- Outcome of one `std::process::Command::output()` call: whether the child
could be spawned at all, its exit status, and its captured standard output
(`none` models bytes that are not valid UTF-8). -/
structure RunResult where
  spawned : Bool
  exitCode : Int
  stdout : Option String

/-- Embeds `run_or_die` (src/main.rs:90-99): panic (`none`) when the command
cannot be executed (`output()` returns `Err`) or when the captured output is
not valid UTF-8; otherwise return the trimmed output.  The child's exit
status is not inspected anywhere in the source. -/
def run_or_die (r : RunResult) : Option String :=
  if r.spawned = false then none
  else
    match r.stdout with
    | none => none
    | some s => some (String.mk (rustTrim s.data))

/-- The command-line arguments of the program that the orchestrator consumes
(the record path is immaterial here: the record's content is passed to the
orchestrator model directly). -/
structure ArgsM where
  interval : Int
  sink : String
  task : String

/-- Embeds `Args::get_command_or_die` (src/main.rs:43-69): the command for
the requested task, or `none` for the `eprintln` + `exit(1)` branch on an
unknown task.  A Rust `match` on `&str` literals is an equality chain. -/
def get_command_or_die (a : ArgsM) : Option (List String) :=
  if a.task = "up" then
    some ["pactl", "set-sink-volume", a.sink, "+" ++ intToString a.interval]
  else if a.task = "down" then
    some ["pactl", "set-sink-volume", a.sink, "-" ++ intToString a.interval]
  else if a.task = "mute" then
    some ["pactl", "set-sink-mute", a.sink, "toggle"]
  else if a.task = "noop" then
    some ["true"]
  else none

/-- Payload of a successful run of `main`. -/
structure MainOk where
  old_id : Option Int
  notif_cmd : List String
  new_id : Int

/-- Observable trace of one invocation of `main`: the subprocess commands
issued (in order), whether the record file was opened, the final record
content, and the outcome. -/
structure MainTrace where
  procs : List (List String)
  dbOpened : Bool
  dbFinal : String
  result : Except String MainOk

/-- Embeds `main` (src/main.rs:127-169), sequentially (a single invocation
with no concurrent peer, so both reads of the record see `db0`).  `oracle`
gives the outcome of each subprocess invocation; `db0` is the record content
when the invocation starts.  Errors carry the source's panic / exit
messages. -/
def mainModel (a : ArgsM) (oracle : List String → RunResult) (db0 : String) :
    MainTrace :=
  match get_command_or_die a with
  | none => ⟨[], false, db0, .error "Unknown task"⟩
  | some cmd =>
    match run_or_die (oracle cmd) with
    | none => ⟨[cmd], false, db0, .error "Failed to execute command"⟩
    | some _ =>
      let muteCmd : List String := ["pactl", "get-sink-mute", a.sink]
      match run_or_die (oracle muteCmd) with
      | none => ⟨[cmd, muteCmd], false, db0, .error "Failed to execute command"⟩
      | some mute =>
        let volCmd : List String := ["pactl", "get-sink-volume", a.sink]
        match run_or_die (oracle volCmd) with
        | none =>
          ⟨[cmd, muteCmd, volCmd], false, db0, .error "Failed to execute command"⟩
        | some volume =>
          match parse_volume volume with
          | none => ⟨[cmd, muteCmd, volCmd], false, db0, .error "parse_volume panic"⟩
          | some (vol_pct, channels) =>
            match read_db db0 with
            | none => ⟨[cmd, muteCmd, volCmd], true, db0, .error "Failed to parse DB"⟩
            | some r1 =>
              match (match r1 with
                     | some id => some (some id)
                     | none => read_db db0) with
              | none => ⟨[cmd, muteCmd, volCmd], true, db0, .error "Failed to parse DB"⟩
              | some old_id =>
                let body :=
                  mute ++ "\n" ++
                    String.intercalate "\n" (channels.map (fun c => "- " ++ c))
                let notif_cmd :=
                  ["notify-send", "Volume", body, "-p", "-i", get_icon mute vol_pct]
                    ++ (match old_id with
                        | some id => ["-r", intToString id]
                        | none => [])
                match run_or_die (oracle notif_cmd) with
                | none =>
                  ⟨[cmd, muteCmd, volCmd, notif_cmd], true, db0,
                   .error "Failed to execute command"⟩
                | some out =>
                  match parse_i32 out with
                  | none =>
                    ⟨[cmd, muteCmd, volCmd, notif_cmd], true, db0,
                     .error "Failed to parse new ID"⟩
                  | some new_id =>
                    ⟨[cmd, muteCmd, volCmd, notif_cmd], true,
                     (match old_id with
                      | none => write_db new_id
                      | some _ => db0),
                     .ok ⟨old_id, notif_cmd, new_id⟩⟩

/-!
Concurrency protocol.  Each invocation of the program runs the record
protocol of src/main.rs:141-167: acquire a shared `flock`, read; if a value
is present it is the old identity; otherwise upgrade to an exclusive lock
(`flock` upgrades drop the held lock before acquiring the new one), re-read,
and, when the re-read still finds nothing, write the fresh identifier while
still holding the exclusive lock.  All locks are released when the process
exits.  The state machine below is that protocol, one program counter per
process, interleaved arbitrarily.
-/

/-- Lock mode a process holds on the record file. -/
inductive LockK where
  | free | shared | excl
deriving DecidableEq

/-- Program counter of one process running the record protocol. -/
inductive PC where
  | init      -- about to acquire the shared lock
  | sRead     -- holds shared; about to read
  | xWait     -- read empty under shared; lock dropped, waiting for exclusive
  | xRead     -- holds exclusive; about to re-read
  | doWrite   -- re-read empty under exclusive; about to write its identifier
  | finish    -- identity resolved (still holding its lock); about to exit
  | done      -- exited, lock released
deriving DecidableEq

/-- Global state: record content, per-process lock, program counter, the
identity each process observed (`none` until resolved), and whether it
performed the write. -/
structure PState (n : Nat) where
  file : Option Nat
  lk : Fin n → LockK
  pc : Fin n → PC
  obs : Fin n → Option (Option Nat)
  wrote : Fin n → Bool
deriving DecidableEq

/-- One interleaving step of some process `i`; `ids i` is the notification
identifier process `i` would write.  Lock acquisition is blocking: the
shared-lock step requires no exclusive holder, the exclusive-lock step
requires every other process to hold nothing. -/
inductive Step (n : Nat) (ids : Fin n → Nat) : PState n → PState n → Prop where
  | lockShared (i : Fin n) (s t : PState n)
      (hpc : s.pc i = PC.init) (hfree : ∀ j, s.lk j ≠ LockK.excl)
      (ht : t = { s with lk := Function.update s.lk i LockK.shared,
                         pc := Function.update s.pc i PC.sRead }) :
      Step n ids s t
  | sReadSome (i : Fin n) (v : Nat) (s t : PState n)
      (hpc : s.pc i = PC.sRead) (hf : s.file = some v)
      (ht : t = { s with obs := Function.update s.obs i (some (some v)),
                         pc := Function.update s.pc i PC.finish }) :
      Step n ids s t
  | sReadNone (i : Fin n) (s t : PState n)
      (hpc : s.pc i = PC.sRead) (hf : s.file = none)
      (ht : t = { s with lk := Function.update s.lk i LockK.free,
                         pc := Function.update s.pc i PC.xWait }) :
      Step n ids s t
  | lockExcl (i : Fin n) (s t : PState n)
      (hpc : s.pc i = PC.xWait) (hfree : ∀ j, j ≠ i → s.lk j = LockK.free)
      (ht : t = { s with lk := Function.update s.lk i LockK.excl,
                         pc := Function.update s.pc i PC.xRead }) :
      Step n ids s t
  | xReadSome (i : Fin n) (v : Nat) (s t : PState n)
      (hpc : s.pc i = PC.xRead) (hf : s.file = some v)
      (ht : t = { s with obs := Function.update s.obs i (some (some v)),
                         pc := Function.update s.pc i PC.finish }) :
      Step n ids s t
  | xReadNone (i : Fin n) (s t : PState n)
      (hpc : s.pc i = PC.xRead) (hf : s.file = none)
      (ht : t = { s with obs := Function.update s.obs i (some none),
                         pc := Function.update s.pc i PC.doWrite }) :
      Step n ids s t
  | writeId (i : Fin n) (s t : PState n)
      (hpc : s.pc i = PC.doWrite)
      (ht : t = { s with file := some (ids i),
                         wrote := Function.update s.wrote i true,
                         pc := Function.update s.pc i PC.finish }) :
      Step n ids s t
  | exitProc (i : Fin n) (s t : PState n)
      (hpc : s.pc i = PC.finish)
      (ht : t = { s with lk := Function.update s.lk i LockK.free,
                         pc := Function.update s.pc i PC.done }) :
      Step n ids s t

/-- Fresh record, all processes at the start of the protocol. -/
def initState (n : Nat) : PState n :=
  ⟨none, fun _ => LockK.free, fun _ => PC.init, fun _ => none, fun _ => false⟩

/-- States reachable by interleaving protocol steps from the fresh record. -/
def ProtoReach (n : Nat) (ids : Fin n → Nat) (s : PState n) : Prop :=
  Relation.ReflTransGen (Step n ids) (initState n) s

/-- Sum of the parsed capture values of a match list (the mathematical total
that `parse_volume` accumulates when no wrap-around occurs). -/
def capSum (l : List (List Char × List Char)) : Nat :=
  (l.map (fun c => digitsVal c.2)).sum

/-- The spec's two-channel parser test input. -/
def specVolInput : String :=
  "Channel 1: 0 / 50% / 0.00 dB\nChannel 2: 0 / 70% / 0.00 dB"

/-- Concrete arguments for exercising the orchestrator model. -/
def demoArgs : ArgsM := ⟨512, "@DEFAULT_SINK@", "noop"⟩

/-- Concrete arguments carrying an unknown task name. -/
def demoBadArgs : ArgsM := ⟨512, "@DEFAULT_SINK@", "frobnicate"⟩

/-- Concrete subprocess behaviour: every command spawns and exits 0; the mute
query reports unmuted, the volume query reports one channel at 50%, and the
notification tool prints identifier 37. -/
def demoOracle : List String → RunResult := fun c =>
  if c = ["pactl", "get-sink-mute", "@DEFAULT_SINK@"] then
    ⟨true, 0, some "Mute: no"⟩
  else if c = ["pactl", "get-sink-volume", "@DEFAULT_SINK@"] then
    ⟨true, 0, some "x: 0 / 50% / 0.00 dB"⟩
  else if c = ["true"] then ⟨true, 0, some ""⟩
  else ⟨true, 0, some "37"⟩

/-- Identifier assignment for the one-process protocol demonstration. -/
def demoIds : Fin 1 → Nat := fun _ => 42

/-- Final state of the one-process protocol run: identifier 42 written, the
process observed no prior identity, lock released. -/
def demoFinal : PState 1 :=
  ⟨some 42, fun _ => LockK.free, fun _ => PC.done, fun _ => some none,
   fun _ => true⟩

/-- Inductive invariant of the record protocol. -/
structure ProtoInv (n : Nat) (ids : Fin n → Nat) (s : PState n) : Prop where
  exclU : ∀ i j, i ≠ j → s.lk i = LockK.excl → s.lk j = LockK.free
  pcInit : ∀ i, s.pc i = PC.init → s.lk i = LockK.free
  pcSRead : ∀ i, s.pc i = PC.sRead → s.lk i = LockK.shared
  pcXWait : ∀ i, s.pc i = PC.xWait → s.lk i = LockK.free
  pcXRead : ∀ i, s.pc i = PC.xRead → s.lk i = LockK.excl
  pcWrite : ∀ i, s.pc i = PC.doWrite → s.lk i = LockK.excl
  pcDone : ∀ i, s.pc i = PC.done → s.lk i = LockK.free
  pending : ∀ i, s.pc i = PC.doWrite →
    s.file = none ∧ s.wrote i = false ∧ s.obs i = some none
  fileNone : s.file = none → ∀ i, s.wrote i = false
  fileSome : ∀ v, s.file = some v →
    ∃ i, s.wrote i = true ∧ v = ids i ∧ ∀ j, s.wrote j = true → j = i
  obsSome : ∀ i v, s.obs i = some (some v) → s.file = some v
  obsNone : ∀ i, s.obs i = some none → s.pc i = PC.doWrite ∨ s.wrote i = true
  wroteObs : ∀ i, s.wrote i = true → s.obs i = some none
  finObs : ∀ i, s.pc i = PC.finish ∨ s.pc i = PC.done → s.obs i ≠ none
  wrotePC : ∀ i, s.wrote i = true → s.pc i = PC.finish ∨ s.pc i = PC.done

/-!
Claim theorems.
-/

/-- Claim C4: icon classification selects the muted icon when the mute text
is literally "Mute: yes" (overriding the percentage) or the percentage is 0,
the low icon for 1-32, the medium icon for 33-65, and the high icon for
66-100, with exactly these breakpoints. -/
theorem icon_breakpoints (m : String) (p : Nat) :
    ((m = "Mute: yes" ∨ p = 0) → get_icon m p = "audio-volume-muted") ∧
    (m ≠ "Mute: yes" → 1 ≤ p → p ≤ 32 → get_icon m p = "audio-volume-low") ∧
    (m ≠ "Mute: yes" → 33 ≤ p → p ≤ 65 → get_icon m p = "audio-volume-medium") ∧
    (m ≠ "Mute: yes" → 66 ≤ p → p ≤ 100 → get_icon m p = "audio-volume-high") := by
  refine ⟨?_, ?_, ?_, ?_⟩
  · rintro (hm | hp)
    · simp [get_icon, hm]
    · subst hp; simp [get_icon]
  · intro hm h1 h2
    unfold get_icon
    rw [if_neg hm, if_neg (by omega), if_pos (by omega)]
  · intro hm h1 h2
    unfold get_icon
    rw [if_neg hm, if_neg (by omega), if_neg (by omega), if_pos (by omega)]
  · intro hm h1 h2
    unfold get_icon
    rw [if_neg hm, if_neg (by omega), if_neg (by omega), if_neg (by omega)]

/-- Witness for C4 at the spec's boundary points. -/
theorem icon_breakpoints_witness :
    get_icon "Mute: no" 0 = "audio-volume-muted" ∧
    get_icon "Mute: no" 32 = "audio-volume-low" ∧
    get_icon "Mute: no" 33 = "audio-volume-medium" ∧
    get_icon "Mute: no" 65 = "audio-volume-medium" ∧
    get_icon "Mute: no" 66 = "audio-volume-high" ∧
    get_icon "Mute: yes" 80 = "audio-volume-muted" :=
  ⟨(icon_breakpoints _ 0).1 (Or.inr rfl),
   (icon_breakpoints _ 32).2.1 (by decide) (by omega) (by omega),
   (icon_breakpoints _ 33).2.2.1 (by decide) (by omega) (by omega),
   (icon_breakpoints _ 65).2.2.1 (by decide) (by omega) (by omega),
   (icon_breakpoints _ 66).2.2.2 (by decide) (by omega) (by omega),
   (icon_breakpoints _ 80).1 (Or.inl rfl)⟩

/-- Claim C10: for every percentage strictly above 100 with mute text not
indicating mute, the selected icon is the high icon (the catch-all arm of the
`match`). -/
theorem icon_above_range_high (m : String) (p : Nat)
    (hm : m ≠ "Mute: yes") (hp : 100 < p) :
    get_icon m p = "audio-volume-high" := by
  unfold get_icon
  rw [if_neg hm, if_neg (by omega), if_neg (by omega), if_neg (by omega)]

/-- Witness for C10 at percentage 150. -/
theorem icon_above_range_high_witness :
    get_icon "Mute: no" 150 = "audio-volume-high" :=
  icon_above_range_high "Mute: no" 150 (by decide) (by omega)

/-- Counterexample to C2 as stated: a child that spawns, exits with status 1
and prints valid UTF-8 makes `run_or_die` return the trimmed output normally;
the exit status is never inspected. -/
theorem run_or_die_nonzero_exit_returns :
    (RunResult.mk true 1 (some "ok")).exitCode ≠ 0 ∧
    run_or_die (RunResult.mk true 1 (some "ok")) = some "ok" := by decide

/-- Claim C2 (amended): `run_or_die` aborts fatally exactly when the child
cannot be spawned or its captured output is not valid UTF-8; whenever the
child spawns and produces valid UTF-8, the trimmed output is returned
normally regardless of the exit status. -/
theorem run_or_die_fatal_cases :
    (∀ r : RunResult, ∀ s, r.spawned = true → r.stdout = some s →
      run_or_die r = some (String.mk (rustTrim s.data))) ∧
    (∀ r : RunResult, r.spawned = false ∨ r.stdout = none →
      run_or_die r = none) := by
  constructor
  · intro r s hs hout
    simp [run_or_die, hs, hout]
  · intro r h
    rcases h with h | h <;> simp [run_or_die, h]

/-- Witness for C2 (amended): exit status 1, valid output. -/
theorem run_or_die_fatal_cases_witness :
    run_or_die (RunResult.mk true 1 (some " ok ")) =
      some (String.mk (rustTrim " ok ".data)) :=
  run_or_die_fatal_cases.1 (RunResult.mk true 1 (some " ok ")) " ok " rfl rfl

/-- Claim C7: when no channel line matches the pattern, `parse_volume`
panics (`total / ret.len()` divides by zero); it never returns a value. -/
theorem parse_volume_no_match_fatal (vol : String)
    (h : captures vol.data = []) :
    parse_volume vol = none := by
  unfold parse_volume
  rw [h]
  rfl

/-- Witness for C7 on an input with no channel line. -/
theorem parse_volume_no_match_fatal_witness : parse_volume "garbage" = none :=
  parse_volume_no_match_fatal "garbage" (by decide)

/-!
Decimal print / parse round-trip lemmas.
-/

theorem digitToChar_props (d : Nat) :
    (digitToChar d).isDigit = true ∧ isWs (digitToChar d) = false ∧
    digitToChar d ≠ '-' ∧ digitToChar d ≠ '+' := by
  unfold digitToChar
  split <;> decide

theorem digitToChar_charToDigit (d : Nat) (h : d < 10) :
    charToDigit (digitToChar d) = d := by
  interval_cases d <;> rfl

theorem foldl_digits_reverse (L : List Nat) (acc : Nat) (h : ∀ d ∈ L, d < 10) :
    (L.reverse.map digitToChar).foldl (fun a c => a * 10 + charToDigit c) acc
      = acc * 10 ^ L.length + Nat.ofDigits 10 L := by
  induction L generalizing acc with
  | nil => simp
  | cons d L ih =>
    have hd : d < 10 := h d (List.mem_cons_self _ _)
    have hL : ∀ e ∈ L, e < 10 := fun e he => h e (List.mem_cons_of_mem _ he)
    rw [List.reverse_cons, List.map_append, List.foldl_append]
    rw [ih acc hL]
    simp only [List.map_cons, List.map_nil, List.foldl_cons, List.foldl_nil]
    rw [digitToChar_charToDigit d hd, Nat.ofDigits_cons]
    simp only [List.length_cons, pow_succ]
    ring

theorem natToCharsAux_eq (fuel : Nat) :
    ∀ n : Nat, n < fuel →
      natToCharsAux fuel n = (Nat.digits 10 n).reverse.map digitToChar := by
  induction fuel with
  | zero => intro n hn; omega
  | succ fuel ih =>
    intro n hn
    by_cases h : n = 0
    · subst h; simp [natToCharsAux]
    · have hdiv : n / 10 < n := Nat.div_lt_self (by omega) (by norm_num)
      rw [show natToCharsAux (fuel + 1) n =
            natToCharsAux fuel (n / 10) ++ [digitToChar (n % 10)] from by
          simp [natToCharsAux, h]]
      rw [ih (n / 10) (by omega)]
      rw [Nat.digits_def' (by norm_num : 1 < 10) (by omega : 0 < n)]
      simp

theorem natToChars_eq_digits (n : Nat) :
    natToChars n =
      if n = 0 then ['0'] else (Nat.digits 10 n).reverse.map digitToChar := by
  unfold natToChars
  by_cases h : n = 0
  · simp [h]
  · rw [if_neg h, if_neg h, natToCharsAux_eq (n + 1) n (by omega)]

theorem digitsVal_natToChars (n : Nat) : digitsVal (natToChars n) = n := by
  rw [natToChars_eq_digits]
  by_cases h : n = 0
  · subst h; rfl
  · rw [if_neg h]
    unfold digitsVal
    rw [foldl_digits_reverse _ 0
      (fun d hd => Nat.digits_lt_base (by norm_num) hd)]
    simp [Nat.ofDigits_digits]

theorem mem_natToChars (n : Nat) (c : Char) (hc : c ∈ natToChars n) :
    ∃ d, c = digitToChar d := by
  rw [natToChars_eq_digits] at hc
  split at hc
  · exact ⟨0, by simpa using hc⟩
  · rcases List.mem_map.mp hc with ⟨d, _, hd⟩
    exact ⟨d, hd.symm⟩

theorem natToChars_ne_nil (n : Nat) : natToChars n ≠ [] := by
  rw [natToChars_eq_digits]
  split
  · simp
  · rename_i h
    have : Nat.digits 10 n ≠ [] := Nat.digits_ne_nil_iff_ne_zero.mpr h
    simp [this]

theorem natToChars_all_digit (n : Nat) :
    (natToChars n).all Char.isDigit = true := by
  rw [List.all_eq_true]
  intro c hc
  rcases mem_natToChars n c hc with ⟨d, rfl⟩
  exact (digitToChar_props d).1

theorem parseDigits_natToChars (m : Nat) : parseDigits (natToChars m) = some m := by
  unfold parseDigits
  rw [if_pos ⟨natToChars_ne_nil m, natToChars_all_digit m⟩, digitsVal_natToChars]

theorem dropWhile_eq_self_of_not (p : Char → Bool) (l : List Char)
    (h : ∀ c ∈ l, p c = false) : l.dropWhile p = l := by
  cases l with
  | nil => rfl
  | cons c cs =>
    rw [List.dropWhile_cons]
    simp [h c (List.mem_cons_self _ _)]

theorem rustTrim_eq_self (l : List Char) (h : ∀ c ∈ l, isWs c = false) :
    rustTrim l = l := by
  unfold rustTrim
  rw [dropWhile_eq_self_of_not isWs l h]
  rw [dropWhile_eq_self_of_not isWs l.reverse
    (fun c hc => h c (List.mem_reverse.mp hc))]
  exact List.reverse_reverse l

theorem intToString_no_ws (n : Int) :
    ∀ c ∈ (intToString n).data, isWs c = false := by
  intro c hc
  unfold intToString at hc
  split at hc <;> simp only [String.data] at hc
  · rcases List.mem_cons.mp hc with rfl | hc'
    · decide
    · rcases mem_natToChars _ c hc' with ⟨d, rfl⟩
      exact (digitToChar_props d).2.1
  · rcases mem_natToChars _ c hc with ⟨d, rfl⟩
    exact (digitToChar_props d).2.1

theorem intToString_ne_nil (n : Int) : (intToString n).data ≠ [] := by
  unfold intToString
  split <;> simp [natToChars_ne_nil]

theorem parse_i32_cons (c : Char) (rest : List Char) :
    parse_i32 (String.mk (c :: rest)) =
      if c = '-' then
        (parseDigits rest).bind fun v =>
          if v ≤ 2 ^ 31 then some (-(v : Int)) else none
      else
        (parseDigits (if c = '+' then rest else c :: rest)).bind fun v =>
          if v < 2 ^ 31 then some ((v : Nat) : Int) else none := rfl

theorem parse_i32_intToString (n : Int) (h1 : -(2 ^ 31) ≤ n) (h2 : n < 2 ^ 31) :
    parse_i32 (intToString n) = some n := by
  by_cases hn : n < 0
  · have hdata : intToString n = String.mk ('-' :: natToChars n.natAbs) := by
      unfold intToString
      rw [if_pos hn]
    rw [hdata, parse_i32_cons, if_pos rfl, parseDigits_natToChars,
      Option.some_bind]
    rw [if_pos (by omega : n.natAbs ≤ 2 ^ 31)]
    congr 1
    omega
  · have hdata : intToString n = String.mk (natToChars n.toNat) := by
      unfold intToString
      rw [if_neg hn]
    rcases List.exists_cons_of_ne_nil (natToChars_ne_nil n.toNat) with ⟨c, cs, hcs⟩
    have hcd : ∃ d, c = digitToChar d := by
      apply mem_natToChars n.toNat
      rw [hcs]
      exact List.mem_cons_self _ _
    rcases hcd with ⟨d, rfl⟩
    rw [hdata, hcs, parse_i32_cons]
    rw [if_neg (digitToChar_props d).2.2.1]
    rw [if_neg (digitToChar_props d).2.2.2]
    rw [← hcs, parseDigits_natToChars, Option.some_bind]
    rw [if_pos (by omega : n.toNat < 2 ^ 31)]
    congr 1
    omega

/-- Claim C8: record round-trip.  For every `i32` identifier `n`, writing `n`
to the record and reading it back yields `some n` (in particular for the
spec's 42). -/
theorem record_roundtrip (n : Int) (h1 : -(2 ^ 31) ≤ n) (h2 : n < 2 ^ 31) :
    read_db (write_db n) = some (some n) := by
  unfold read_db write_db
  rw [rustTrim_eq_self _ (intToString_no_ws n)]
  have hmk : String.mk (intToString n).data = intToString n := rfl
  rw [hmk]
  rw [if_neg (fun hlen =>
    intToString_ne_nil n (List.length_eq_zero.mp hlen))]
  rw [parse_i32_intToString n h1 h2]

/-- Witness for C8 at identifier 42. -/
theorem record_roundtrip_witness : read_db (write_db 42) = some (some 42) :=
  record_roundtrip 42 (by norm_num) (by norm_num)

theorem read_db_eq (s : String) :
    read_db s =
      (if (rustTrim s.data).length = 0 then some none
       else
         match parse_i32 (String.mk (rustTrim s.data)) with
         | some v => some (some v)
         | none => none) := rfl

/-- Counterexample to C6 as stated: the record content "-5" is non-empty and
is not the decimal text of a non-negative integer, yet `read_db` does not
fail; it returns the negative identity, because the source parses with
`parse::<i32>()`, which accepts a sign. -/
theorem read_db_negative_accepted :
    read_db "-5" = some (some (-5)) ∧ (-5 : Int) < 0 := by decide

/-- Claim C6 (amended): reading the record yields no identity exactly when
the trimmed content is empty; otherwise the trimmed content must parse as a
(possibly signed) decimal 32-bit integer, returned as `some` of that value,
and any non-empty content that does not so parse is a fatal error. -/
theorem read_db_contract (s : String) :
    (read_db s = some none ↔ rustTrim s.data = []) ∧
    (∀ n : Int, parse_i32 (String.mk (rustTrim s.data)) = some n →
      read_db s = some (some n)) ∧
    (rustTrim s.data ≠ [] → parse_i32 (String.mk (rustTrim s.data)) = none →
      read_db s = none) := by
  rw [read_db_eq s]
  by_cases hl : rustTrim s.data = []
  · refine ⟨by simp [hl], ?_, fun h _ => absurd hl h⟩
    intro n hn
    rw [hl] at hn
    simp [show parse_i32 (String.mk ([] : List Char)) = none from rfl] at hn
  · rw [if_neg (by simpa [List.length_eq_zero] using hl)]
    cases hp : parse_i32 (String.mk (rustTrim s.data)) with
    | some v =>
      refine ⟨by simp [hl], ?_, ?_⟩
      · intro n hn
        cases hn
        rfl
      · intro _ hnone
        cases hnone
    | none =>
      refine ⟨by simp [hl], ?_, fun _ _ => rfl⟩
      intro n hn
      cases hn

/-- Witness for C6 (amended) on content " 42 ". -/
theorem read_db_contract_witness : read_db " 42 " = some (some 42) :=
  (read_db_contract " 42 ").2.1 42 (by decide)

/-!
Capture well-formedness: every capture produced by the volume pattern is a
nonempty digit string.
-/

theorem tryKs_eq_some (f : Nat → Option α) (ks : List Nat) (r : α)
    (h : tryKs f ks = some r) : ∃ k ∈ ks, f k = some r := by
  induction ks with
  | nil => cases h
  | cons k ks ih =>
    simp only [tryKs] at h
    cases hf : f k with
    | some x =>
      rw [hf] at h
      cases h
      exact ⟨k, List.mem_cons_self _ _, hf⟩
    | none =>
      rw [hf] at h
      rcases ih h with ⟨k', hk', hf'⟩
      exact ⟨k', List.mem_cons_of_mem _ hk', hf'⟩

theorem takeWhile_length_le (p : Char → Bool) (cs : List Char) :
    (cs.takeWhile p).length ≤ cs.length := by
  induction cs with
  | nil => simp
  | cons c cs' ih =>
    rw [List.takeWhile_cons]
    split
    · simpa using ih
    · simp

theorem take_all_of_le_takeWhile (p : Char → Bool) (cs : List Char) (k : Nat)
    (hk : k ≤ (cs.takeWhile p).length) : (cs.take k).all p = true := by
  induction cs generalizing k with
  | nil => simp
  | cons c cs' ih =>
    by_cases hc : p c
    · cases k with
      | zero => simp
      | succ j =>
        rw [List.take_succ_cons]
        have hk' : j ≤ (cs'.takeWhile p).length := by
          rw [List.takeWhile_cons, if_pos hc] at hk
          simpa using hk
        simp [hc, ih j hk']
    · rw [List.takeWhile_cons, if_neg hc] at hk
      simp only [List.length_nil, Nat.le_zero] at hk
      subst hk
      simp

theorem matchItems_grp_digits (items : List RItem) (cs m cap : List Char)
    (hm : matchItems items cs = some (m, cap))
    (hdig : ∀ p, RItem.grp p ∈ items → p = Char.isDigit)
    (hgrp : ∃ p, RItem.grp p ∈ items) :
    cap ≠ [] ∧ cap.all Char.isDigit = true := by
  induction items generalizing cs m cap with
  | nil => rcases hgrp with ⟨p, hp⟩; cases hp
  | cons it rest ih =>
    have hdig' : ∀ p, RItem.grp p ∈ rest → p = Char.isDigit :=
      fun p hp => hdig p (List.mem_cons_of_mem _ hp)
    cases it with
    | lit l =>
      have hgrp' : ∃ p, RItem.grp p ∈ rest := by
        rcases hgrp with ⟨p, hp⟩
        rcases List.mem_cons.mp hp with h | h
        · simp at h
        · exact ⟨p, h⟩
      simp only [matchItems] at hm
      split at hm
      · rcases Option.map_eq_some'.mp hm with ⟨r, hr, hre⟩
        cases hre
        exact ih _ _ _ hr hdig' hgrp'
      · cases hm
    | plusCls p =>
      have hgrp' : ∃ q, RItem.grp q ∈ rest := by
        rcases hgrp with ⟨q, hq⟩
        rcases List.mem_cons.mp hq with h | h
        · simp at h
        · exact ⟨q, h⟩
      simp only [matchItems] at hm
      rcases tryKs_eq_some _ _ _ hm with ⟨k, _, hfk⟩
      split at hfk
      · rcases Option.map_eq_some'.mp hfk with ⟨r, hr, hre⟩
        cases hre
        exact ih _ _ _ hr hdig' hgrp'
      · cases hfk
    | starCls p =>
      have hgrp' : ∃ q, RItem.grp q ∈ rest := by
        rcases hgrp with ⟨q, hq⟩
        rcases List.mem_cons.mp hq with h | h
        · simp at h
        · exact ⟨q, h⟩
      simp only [matchItems] at hm
      rcases tryKs_eq_some _ _ _ hm with ⟨k, _, hfk⟩
      split at hfk
      · rcases Option.map_eq_some'.mp hfk with ⟨r, hr, hre⟩
        cases hre
        exact ih _ _ _ hr hdig' hgrp'
      · cases hfk
    | optCls p =>
      have hgrp' : ∃ q, RItem.grp q ∈ rest := by
        rcases hgrp with ⟨q, hq⟩
        rcases List.mem_cons.mp hq with h | h
        · simp at h
        · exact ⟨q, h⟩
      cases cs with
      | nil =>
        simp only [matchItems] at hm
        exact ih _ _ _ hm hdig' hgrp'
      | cons c cs' =>
        simp only [matchItems] at hm
        split at hm
        · cases hr : matchItems rest cs' with
          | some r =>
            rw [hr] at hm
            cases hm
            exact ih _ _ _ hr hdig' hgrp'
          | none =>
            rw [hr] at hm
            exact ih _ _ _ hm hdig' hgrp'
        · exact ih _ _ _ hm hdig' hgrp'
    | grp p =>
      have hp : p = Char.isDigit := hdig p (List.mem_cons_self _ _)
      subst hp
      simp only [matchItems] at hm
      rcases tryKs_eq_some _ _ _ hm with ⟨k, _, hfk⟩
      split at hfk
      · rename_i hcond
        rcases Option.map_eq_some'.mp hfk with ⟨r, _, hre⟩
        cases hre
        have hkcs : k ≤ cs.length :=
          le_trans hcond.2 (takeWhile_length_le _ _)
        constructor
        · intro hnil
          have : (cs.take k).length = k := by
            rw [List.length_take]
            omega
          rw [hnil] at this
          simp at this
          omega
        · exact take_all_of_le_takeWhile _ _ _ hcond.2
      · cases hfk

theorem findMatch_cap (cs m cap rest : List Char)
    (h : findMatch cs = some (m, cap, rest)) :
    cap ≠ [] ∧ cap.all Char.isDigit = true := by
  have hdig : ∀ p, RItem.grp p ∈ volPattern → p = Char.isDigit := by
    intro p hp
    simp [volPattern] at hp
    exact hp
  have hgrp : ∃ p, RItem.grp p ∈ volPattern :=
    ⟨Char.isDigit, by simp [volPattern]⟩
  induction cs with
  | nil =>
    simp only [findMatch] at h
    cases hm : matchItems volPattern [] with
    | some r =>
      rw [hm] at h
      cases h
      exact matchItems_grp_digits _ _ _ _ hm hdig hgrp
    | none =>
      rw [hm] at h
      cases h
  | cons c cs' ih =>
    simp only [findMatch] at h
    cases hm : matchItems volPattern (c :: cs') with
    | some r =>
      rw [hm] at h
      cases h
      exact matchItems_grp_digits _ _ _ _ hm hdig hgrp
    | none =>
      rw [hm] at h
      exact ih h

theorem capturesAux_cap (fuel : Nat) :
    ∀ (cs : List Char) (x : List Char × List Char), x ∈ capturesAux fuel cs →
      x.2 ≠ [] ∧ x.2.all Char.isDigit = true := by
  induction fuel with
  | zero =>
    intro cs x hx
    cases hx
  | succ fuel ih =>
    intro cs x hx
    simp only [capturesAux] at hx
    cases hf : findMatch cs with
    | none =>
      rw [hf] at hx
      cases hx
    | some r =>
      obtain ⟨m, cap, rest⟩ := r
      rw [hf] at hx
      rcases List.mem_cons.mp hx with rfl | hx'
      · exact findMatch_cap cs m cap rest hf
      · exact ih rest x hx'

theorem captures_cap (cs : List Char) (x : List Char × List Char)
    (hx : x ∈ captures cs) : x.2 ≠ [] ∧ x.2.all Char.isDigit = true :=
  capturesAux_cap _ _ _ hx

theorem parse_u32_digits (cs : List Char) (h1 : cs ≠ [])
    (h2 : cs.all Char.isDigit = true) (h3 : digitsVal cs < 2 ^ 32) :
    parse_u32 cs = some (digitsVal cs) := by
  unfold parse_u32 parseDigits
  rw [if_pos ⟨h1, h2⟩, Option.some_bind, if_pos h3]

theorem capSum_cons (full pct : List Char)
    (l : List (List Char × List Char)) :
    capSum ((full, pct) :: l) = digitsVal pct + capSum l := by
  simp [capSum]

theorem accCaps_eq (l : List (List Char × List Char)) (total : Nat)
    (ret : List (List Char))
    (hwf : ∀ x ∈ l, x.2 ≠ [] ∧ x.2.all Char.isDigit = true)
    (hsum : total + capSum l < 2 ^ 32) :
    accCaps l total ret = some (total + capSum l, ret ++ l.map Prod.fst) := by
  induction l generalizing total ret with
  | nil => simp [accCaps, capSum]
  | cons x l ih =>
    obtain ⟨full, pct⟩ := x
    have h1 : pct ≠ [] := (hwf (full, pct) (List.mem_cons_self _ _)).1
    have h2 : pct.all Char.isDigit = true :=
      (hwf (full, pct) (List.mem_cons_self _ _)).2
    have hsum' : total + (digitsVal pct + capSum l) < 2 ^ 32 := by
      rw [capSum_cons] at hsum
      exact hsum
    simp only [accCaps,
      parse_u32_digits pct h1 h2 (by omega : digitsVal pct < 2 ^ 32)]
    rw [Nat.mod_eq_of_lt (by omega : total + digitsVal pct < 2 ^ 32)]
    rw [ih (total + digitsVal pct) (ret ++ [full])
      (fun y hy => hwf y (List.mem_cons_of_mem _ hy)) (by omega)]
    rw [capSum_cons]
    simp only [Option.some.injEq, Prod.mk.injEq, List.map_cons,
      List.append_assoc, List.cons_append, List.nil_append]
    exact ⟨by omega, trivial⟩

/-- Counterexample to C5 as stated: on the spec's own two-channel input the
returned channel list is not the list of full channel lines; the `\S+` at the
start of the pattern cannot cross the space inside "Channel 1", so each match
starts after that space. -/
theorem parse_volume_not_full_lines :
    parse_volume specVolInput ≠
      some (60, ["Channel 1: 0 / 50% / 0.00 dB",
                 "Channel 2: 0 / 70% / 0.00 dB"]) := by
  decide

/-- Claim C5 (amended): for every volume-query text with at least one match
of the channel pattern (and no `u32` overflow), the parser returns the
integer-truncated arithmetic mean of all matched percentages together with
the ordered list of matched substrings — the substrings start at the last
whitespace-delimited token before the colon, not necessarily at the start of
the line. -/
theorem parse_volume_mean (vol : String)
    (hne : captures vol.data ≠ [])
    (hsum : capSum (captures vol.data) < 2 ^ 32)
    (hlen : (captures vol.data).length < 2 ^ 32) :
    parse_volume vol =
      some (capSum (captures vol.data) / (captures vol.data).length,
            (captures vol.data).map (fun c => String.mk c.1)) := by
  unfold parse_volume
  rw [accCaps_eq (captures vol.data) 0 []
    (fun x hx => captures_cap vol.data x hx) (by omega)]
  simp only [Nat.zero_add, List.nil_append, List.length_map]
  rw [Nat.mod_eq_of_lt hlen]
  rw [if_neg (by simpa [List.length_eq_zero] using hne)]
  simp [List.map_map, Function.comp]

/-- Witness for C5 (amended) on the spec's two-channel input. -/
theorem parse_volume_mean_witness :
    parse_volume specVolInput =
      some (60, ["1: 0 / 50% / 0.00 dB", "2: 0 / 70% / 0.00 dB"]) := by
  have h := parse_volume_mean specVolInput (by decide) (by decide) (by decide)
  rw [h]
  decide

theorem suffix_cons_lift {α : Type} (x : α) (l' l : List α)
    (h : l <:+ l') : l <:+ x :: l' := by
  rcases h with ⟨t, rfl⟩
  exact ⟨x :: t, rfl⟩

/-- Claim C9: for every task name outside up / down / mute / noop, the
program reports the unknown task and exits non-zero before invoking any
subprocess and before opening or touching the record: no command runs, the
record is not opened, and its content is unchanged. -/
theorem unknown_task_stops_early (a : ArgsM) (oracle : List String → RunResult)
    (db0 : String) (h1 : a.task ≠ "up") (h2 : a.task ≠ "down")
    (h3 : a.task ≠ "mute") (h4 : a.task ≠ "noop") :
    mainModel a oracle db0 = ⟨[], false, db0, .error "Unknown task"⟩ := by
  unfold mainModel get_command_or_die
  rw [if_neg h1, if_neg h2, if_neg h3, if_neg h4]

/-- Witness for C9 with task "frobnicate". -/
theorem unknown_task_stops_early_witness :
    mainModel demoBadArgs demoOracle "" = ⟨[], false, "", .error "Unknown task"⟩ :=
  unknown_task_stops_early demoBadArgs demoOracle ""
    (by decide) (by decide) (by decide) (by decide)

/-- Claim C3: in every successful invocation, the record is written (with the
fresh notification identifier) exactly when Read-with-escalation found no
identity; when an identity was found the record is unchanged and the
notification command ends with the replace flag and the stored identifier. -/
theorem write_iff_no_identity (a : ArgsM) (oracle : List String → RunResult)
    (db0 : String) (out : MainOk)
    (h : (mainModel a oracle db0).result = .ok out) :
    (out.old_id = none →
      (mainModel a oracle db0).dbFinal = write_db out.new_id) ∧
    (∀ id : Int, out.old_id = some id →
      (mainModel a oracle db0).dbFinal = db0 ∧
      ["-r", intToString id] <:+ out.notif_cmd) := by
  revert h
  simp only [mainModel]
  repeat' split
  all_goals intro h
  all_goals simp_all
  all_goals subst h
  · refine ⟨by simp, ?_⟩
    intro id' hid
    have hid' : some _ = some id' := hid
    injection hid' with he
    subst he
    try refine ⟨rfl, ?_⟩
    repeat first
      | exact List.suffix_refl _
      | apply suffix_cons_lift
  · simp

/-- Witness for C3: a populated record ("7") stays unchanged and the
notification command ends with the replace flag and "7". -/
theorem write_iff_no_identity_witness :
    (mainModel demoArgs demoOracle "7").dbFinal = "7" ∧
    ["-r", intToString 7] <:+
      (MainOk.mk (some 7)
        ["notify-send", "Volume", "Mute: no\n- x: 0 / 50% / 0.00 dB", "-p",
         "-i", "audio-volume-medium", "-r", "7"] 37).notif_cmd :=
  (write_iff_no_identity demoArgs demoOracle "7"
      (MainOk.mk (some 7)
        ["notify-send", "Volume", "Mute: no\n- x: 0 / 50% / 0.00 dB", "-p",
         "-i", "audio-volume-medium", "-r", "7"] 37) rfl).2 7 rfl

theorem upd_pc_lk {n : Nat} {pc : Fin n → PC} {lk : Fin n → LockK} {i : Fin n}
    {pcv : PC} {lkv : LockK} (P : PC) (L : LockK)
    (hbase : ∀ a, pc a = P → lk a = L) (hnew : pcv = P → lkv = L) :
    ∀ a, Function.update pc i pcv a = P → Function.update lk i lkv a = L := by
  intro a ha
  by_cases hai : a = i
  · subst hai
    rw [Function.update_same] at ha
    rw [Function.update_same]
    exact hnew ha
  · rw [Function.update_noteq hai] at ha
    rw [Function.update_noteq hai]
    exact hbase a ha

theorem upd_pc_only {n : Nat} {pc : Fin n → PC} {lk : Fin n → LockK} {i : Fin n}
    {pcv : PC} (P : PC) (L : LockK)
    (hbase : ∀ a, pc a = P → lk a = L) (hnew : pcv = P → lk i = L) :
    ∀ a, Function.update pc i pcv a = P → lk a = L := by
  intro a ha
  by_cases hai : a = i
  · subst hai
    rw [Function.update_same] at ha
    exact hnew ha
  · rw [Function.update_noteq hai] at ha
    exact hbase a ha

theorem exclU_set_free {n : Nat} {lk : Fin n → LockK} {i : Fin n}
    (hbase : ∀ a b, a ≠ b → lk a = LockK.excl → lk b = LockK.free) :
    ∀ a b, a ≠ b → Function.update lk i LockK.free a = LockK.excl →
      Function.update lk i LockK.free b = LockK.free := by
  intro a b hab ha
  by_cases hai : a = i
  · subst hai
    rw [Function.update_same] at ha
    exact LockK.noConfusion ha
  · rw [Function.update_noteq hai] at ha
    by_cases hbi : b = i
    · subst hbi
      rw [Function.update_same]
    · rw [Function.update_noteq hbi]
      exact hbase a b hab ha

theorem finObs_upd {n : Nat} {pc : Fin n → PC} {obs : Fin n → Option (Option Nat)}
    {i : Fin n} {pcv : PC}
    (hbase : ∀ a, pc a = PC.finish ∨ pc a = PC.done → obs a ≠ none)
    (hnew : pcv = PC.finish ∨ pcv = PC.done → obs i ≠ none) :
    ∀ a, Function.update pc i pcv a = PC.finish ∨
        Function.update pc i pcv a = PC.done → obs a ≠ none := by
  intro a ha
  by_cases hai : a = i
  · subst hai
    rw [Function.update_same] at ha
    exact hnew ha
  · rw [Function.update_noteq hai] at ha
    exact hbase a ha

theorem wrotePC_upd {n : Nat} {pc : Fin n → PC} {wrote : Fin n → Bool}
    {i : Fin n} {pcv : PC}
    (hbase : ∀ a, wrote a = true → pc a = PC.finish ∨ pc a = PC.done)
    (hnew : wrote i = true → pcv = PC.finish ∨ pcv = PC.done) :
    ∀ a, wrote a = true → Function.update pc i pcv a = PC.finish ∨
      Function.update pc i pcv a = PC.done := by
  intro a ha
  by_cases hai : a = i
  · subst hai
    rw [Function.update_same]
    exact hnew ha
  · rw [Function.update_noteq hai]
    exact hbase a ha

theorem obsNone_upd_pc {n : Nat} {pc : Fin n → PC}
    {obs : Fin n → Option (Option Nat)} {wrote : Fin n → Bool} {i : Fin n}
    {pcv : PC}
    (hbase : ∀ a, obs a = some none → pc a = PC.doWrite ∨ wrote a = true)
    (hpci : pc i ≠ PC.doWrite) :
    ∀ a, obs a = some none →
      Function.update pc i pcv a = PC.doWrite ∨ wrote a = true := by
  intro a ha
  rcases hbase a ha with hw | hw
  · left
    have hai : a ≠ i := fun h => hpci (h ▸ hw)
    rw [Function.update_noteq hai]
    exact hw
  · right
    exact hw

theorem pending_upd {n : Nat} {pc : Fin n → PC} {i : Fin n} {pcv : PC}
    {Q : Fin n → Prop}
    (hbase : ∀ a, pc a = PC.doWrite → Q a) (hnv : pcv ≠ PC.doWrite) :
    ∀ a, Function.update pc i pcv a = PC.doWrite → Q a := by
  intro a ha
  by_cases hai : a = i
  · subst hai
    rw [Function.update_same] at ha
    exact absurd ha hnv
  · rw [Function.update_noteq hai] at ha
    exact hbase a ha

theorem protoInv_step {n : Nat} {ids : Fin n → Nat} {s t : PState n}
    (hinv : ProtoInv n ids s) (hstep : Step n ids s t) : ProtoInv n ids t := by
  obtain ⟨exclU, pcInit, pcSRead, pcXWait, pcXRead, pcWrite, pcDone, pending,
    fileNone, fileSome, obsSome, obsNone, wroteObs, finObs, wrotePC⟩ := hinv
  cases hstep with
  | lockShared i s t hpc hfree ht =>
    subst ht
    refine ⟨?_, ?_, ?_, ?_, ?_, ?_, ?_, ?_, ?_, ?_, ?_, ?_, ?_, ?_, ?_⟩ <;>
      (try dsimp only)
    · intro a b hab ha
      exfalso
      by_cases hai : a = i
      · subst hai
        rw [Function.update_same] at ha
        exact LockK.noConfusion ha
      · rw [Function.update_noteq hai] at ha
        exact hfree a ha
    · exact upd_pc_lk PC.init LockK.free pcInit (fun h => PC.noConfusion h)
    · exact upd_pc_lk PC.sRead LockK.shared pcSRead (fun _ => rfl)
    · exact upd_pc_lk PC.xWait LockK.free pcXWait (fun h => PC.noConfusion h)
    · exact upd_pc_lk PC.xRead LockK.excl pcXRead (fun h => PC.noConfusion h)
    · exact upd_pc_lk PC.doWrite LockK.excl pcWrite (fun h => PC.noConfusion h)
    · exact upd_pc_lk PC.done LockK.free pcDone (fun h => PC.noConfusion h)
    · exact pending_upd pending (fun h => PC.noConfusion h)
    · exact fileNone
    · exact fileSome
    · exact obsSome
    · exact obsNone_upd_pc obsNone (fun h => by
        rw [hpc] at h
        exact PC.noConfusion h)
    · exact wroteObs
    · exact finObs_upd finObs (fun h => by
        rcases h with h | h <;> exact PC.noConfusion h)
    · exact wrotePC_upd wrotePC (fun hw => by
        rcases wrotePC i hw with h | h <;> rw [hpc] at h <;> exact PC.noConfusion h)
  | sReadSome i v s t hpc hf ht =>
    subst ht
    refine ⟨?_, ?_, ?_, ?_, ?_, ?_, ?_, ?_, ?_, ?_, ?_, ?_, ?_, ?_, ?_⟩ <;>
      (try dsimp only)
    · exact exclU
    · exact upd_pc_only PC.init LockK.free pcInit (fun h => PC.noConfusion h)
    · exact upd_pc_only PC.sRead LockK.shared pcSRead (fun h => PC.noConfusion h)
    · exact upd_pc_only PC.xWait LockK.free pcXWait (fun h => PC.noConfusion h)
    · exact upd_pc_only PC.xRead LockK.excl pcXRead (fun h => PC.noConfusion h)
    · exact upd_pc_only PC.doWrite LockK.excl pcWrite (fun h => PC.noConfusion h)
    · exact upd_pc_only PC.done LockK.free pcDone (fun h => PC.noConfusion h)
    · intro a ha
      by_cases hai : a = i
      · subst hai
        rw [Function.update_same] at ha
        exact PC.noConfusion ha
      · rw [Function.update_noteq hai] at ha
        obtain ⟨h1, h2, h3⟩ := pending a ha
        refine ⟨h1, h2, ?_⟩
        rw [Function.update_noteq hai]
        exact h3
    · exact fileNone
    · exact fileSome
    · intro a w ha
      by_cases hai : a = i
      · subst hai
        rw [Function.update_same] at ha
        injection ha with h1
        injection h1 with h2
        rw [← h2]
        exact hf
      · rw [Function.update_noteq hai] at ha
        exact obsSome a w ha
    · intro a ha
      by_cases hai : a = i
      · subst hai
        rw [Function.update_same] at ha
        injection ha with h1
        exact Option.noConfusion h1
      · rw [Function.update_noteq hai] at ha
        rcases obsNone a ha with hw | hw
        · left
          rw [Function.update_noteq hai]
          exact hw
        · right
          exact hw
    · intro a ha
      by_cases hai : a = i
      · subst hai
        exfalso
        rcases wrotePC a ha with h | h <;> rw [hpc] at h <;> exact PC.noConfusion h
      · rw [Function.update_noteq hai]
        exact wroteObs a ha
    · intro a ha
      by_cases hai : a = i
      · subst hai
        rw [Function.update_same]
        exact fun h => Option.noConfusion h
      · rw [Function.update_noteq hai] at ha
        rw [Function.update_noteq hai]
        exact finObs a ha
    · exact wrotePC_upd wrotePC (fun _ => Or.inl rfl)
  | sReadNone i s t hpc hf ht =>
    subst ht
    refine ⟨?_, ?_, ?_, ?_, ?_, ?_, ?_, ?_, ?_, ?_, ?_, ?_, ?_, ?_, ?_⟩ <;>
      (try dsimp only)
    · exact exclU_set_free exclU
    · exact upd_pc_lk PC.init LockK.free pcInit (fun h => PC.noConfusion h)
    · exact upd_pc_lk PC.sRead LockK.shared pcSRead (fun h => PC.noConfusion h)
    · exact upd_pc_lk PC.xWait LockK.free pcXWait (fun _ => rfl)
    · exact upd_pc_lk PC.xRead LockK.excl pcXRead (fun h => PC.noConfusion h)
    · exact upd_pc_lk PC.doWrite LockK.excl pcWrite (fun h => PC.noConfusion h)
    · exact upd_pc_lk PC.done LockK.free pcDone (fun h => PC.noConfusion h)
    · exact pending_upd pending (fun h => PC.noConfusion h)
    · exact fileNone
    · exact fileSome
    · exact obsSome
    · exact obsNone_upd_pc obsNone (fun h => by
        rw [hpc] at h
        exact PC.noConfusion h)
    · exact wroteObs
    · exact finObs_upd finObs (fun h => by
        rcases h with h | h <;> exact PC.noConfusion h)
    · exact wrotePC_upd wrotePC (fun hw => by
        rcases wrotePC i hw with h | h <;> rw [hpc] at h <;> exact PC.noConfusion h)
  | lockExcl i s t hpc hfree ht =>
    subst ht
    refine ⟨?_, ?_, ?_, ?_, ?_, ?_, ?_, ?_, ?_, ?_, ?_, ?_, ?_, ?_, ?_⟩ <;>
      (try dsimp only)
    · intro a b hab ha
      by_cases hai : a = i
      · subst hai
        rw [Function.update_noteq (Ne.symm hab)]
        exact hfree b (Ne.symm hab)
      · rw [Function.update_noteq hai] at ha
        rw [hfree a hai] at ha
        exact LockK.noConfusion ha
    · exact upd_pc_lk PC.init LockK.free pcInit (fun h => PC.noConfusion h)
    · exact upd_pc_lk PC.sRead LockK.shared pcSRead (fun h => PC.noConfusion h)
    · exact upd_pc_lk PC.xWait LockK.free pcXWait (fun h => PC.noConfusion h)
    · exact upd_pc_lk PC.xRead LockK.excl pcXRead (fun _ => rfl)
    · exact upd_pc_lk PC.doWrite LockK.excl pcWrite (fun h => PC.noConfusion h)
    · exact upd_pc_lk PC.done LockK.free pcDone (fun h => PC.noConfusion h)
    · exact pending_upd pending (fun h => PC.noConfusion h)
    · exact fileNone
    · exact fileSome
    · exact obsSome
    · exact obsNone_upd_pc obsNone (fun h => by
        rw [hpc] at h
        exact PC.noConfusion h)
    · exact wroteObs
    · exact finObs_upd finObs (fun h => by
        rcases h with h | h <;> exact PC.noConfusion h)
    · exact wrotePC_upd wrotePC (fun hw => by
        rcases wrotePC i hw with h | h <;> rw [hpc] at h <;> exact PC.noConfusion h)
  | xReadSome i v s t hpc hf ht =>
    subst ht
    refine ⟨?_, ?_, ?_, ?_, ?_, ?_, ?_, ?_, ?_, ?_, ?_, ?_, ?_, ?_, ?_⟩ <;>
      (try dsimp only)
    · exact exclU
    · exact upd_pc_only PC.init LockK.free pcInit (fun h => PC.noConfusion h)
    · exact upd_pc_only PC.sRead LockK.shared pcSRead (fun h => PC.noConfusion h)
    · exact upd_pc_only PC.xWait LockK.free pcXWait (fun h => PC.noConfusion h)
    · exact upd_pc_only PC.xRead LockK.excl pcXRead (fun h => PC.noConfusion h)
    · exact upd_pc_only PC.doWrite LockK.excl pcWrite (fun h => PC.noConfusion h)
    · exact upd_pc_only PC.done LockK.free pcDone (fun h => PC.noConfusion h)
    · intro a ha
      by_cases hai : a = i
      · subst hai
        rw [Function.update_same] at ha
        exact PC.noConfusion ha
      · rw [Function.update_noteq hai] at ha
        obtain ⟨h1, h2, h3⟩ := pending a ha
        refine ⟨h1, h2, ?_⟩
        rw [Function.update_noteq hai]
        exact h3
    · exact fileNone
    · exact fileSome
    · intro a w ha
      by_cases hai : a = i
      · subst hai
        rw [Function.update_same] at ha
        injection ha with h1
        injection h1 with h2
        rw [← h2]
        exact hf
      · rw [Function.update_noteq hai] at ha
        exact obsSome a w ha
    · intro a ha
      by_cases hai : a = i
      · subst hai
        rw [Function.update_same] at ha
        injection ha with h1
        exact Option.noConfusion h1
      · rw [Function.update_noteq hai] at ha
        rcases obsNone a ha with hw | hw
        · left
          rw [Function.update_noteq hai]
          exact hw
        · right
          exact hw
    · intro a ha
      by_cases hai : a = i
      · subst hai
        exfalso
        rcases wrotePC a ha with h | h <;> rw [hpc] at h <;> exact PC.noConfusion h
      · rw [Function.update_noteq hai]
        exact wroteObs a ha
    · intro a ha
      by_cases hai : a = i
      · subst hai
        rw [Function.update_same]
        exact fun h => Option.noConfusion h
      · rw [Function.update_noteq hai] at ha
        rw [Function.update_noteq hai]
        exact finObs a ha
    · exact wrotePC_upd wrotePC (fun _ => Or.inl rfl)
  | xReadNone i s t hpc hf ht =>
    subst ht
    refine ⟨?_, ?_, ?_, ?_, ?_, ?_, ?_, ?_, ?_, ?_, ?_, ?_, ?_, ?_, ?_⟩ <;>
      (try dsimp only)
    · exact exclU
    · exact upd_pc_only PC.init LockK.free pcInit (fun h => PC.noConfusion h)
    · exact upd_pc_only PC.sRead LockK.shared pcSRead (fun h => PC.noConfusion h)
    · exact upd_pc_only PC.xWait LockK.free pcXWait (fun h => PC.noConfusion h)
    · exact upd_pc_only PC.xRead LockK.excl pcXRead (fun h => PC.noConfusion h)
    · exact upd_pc_only PC.doWrite LockK.excl pcWrite (fun _ => pcXRead i hpc)
    · exact upd_pc_only PC.done LockK.free pcDone (fun h => PC.noConfusion h)
    · intro a ha
      by_cases hai : a = i
      · subst hai
        refine ⟨hf, fileNone hf a, ?_⟩
        rw [Function.update_same]
      · rw [Function.update_noteq hai] at ha
        obtain ⟨h1, h2, h3⟩ := pending a ha
        refine ⟨h1, h2, ?_⟩
        rw [Function.update_noteq hai]
        exact h3
    · exact fileNone
    · exact fileSome
    · intro a w ha
      by_cases hai : a = i
      · subst hai
        rw [Function.update_same] at ha
        injection ha with h1
        exact Option.noConfusion h1
      · rw [Function.update_noteq hai] at ha
        exact obsSome a w ha
    · intro a ha
      by_cases hai : a = i
      · subst hai
        left
        rw [Function.update_same]
      · rw [Function.update_noteq hai] at ha
        rcases obsNone a ha with hw | hw
        · left
          rw [Function.update_noteq hai]
          exact hw
        · right
          exact hw
    · intro a ha
      by_cases hai : a = i
      · subst hai
        rw [Function.update_same]
      · rw [Function.update_noteq hai]
        exact wroteObs a ha
    · intro a ha
      by_cases hai : a = i
      · subst hai
        rw [Function.update_same] at ha
        rcases ha with h | h <;> exact PC.noConfusion h
      · rw [Function.update_noteq hai] at ha
        rw [Function.update_noteq hai]
        exact finObs a ha
    · exact wrotePC_upd wrotePC (fun hw => by
        rcases wrotePC i hw with h | h <;> rw [hpc] at h <;> exact PC.noConfusion h)
  | writeId i s t hpc ht =>
    subst ht
    obtain ⟨hfile, hwi, hobsi⟩ := pending i hpc
    refine ⟨?_, ?_, ?_, ?_, ?_, ?_, ?_, ?_, ?_, ?_, ?_, ?_, ?_, ?_, ?_⟩ <;>
      (try dsimp only)
    · exact exclU
    · exact upd_pc_only PC.init LockK.free pcInit (fun h => PC.noConfusion h)
    · exact upd_pc_only PC.sRead LockK.shared pcSRead (fun h => PC.noConfusion h)
    · exact upd_pc_only PC.xWait LockK.free pcXWait (fun h => PC.noConfusion h)
    · exact upd_pc_only PC.xRead LockK.excl pcXRead (fun h => PC.noConfusion h)
    · exact upd_pc_only PC.doWrite LockK.excl pcWrite (fun h => PC.noConfusion h)
    · exact upd_pc_only PC.done LockK.free pcDone (fun h => PC.noConfusion h)
    · intro a ha
      by_cases hai : a = i
      · subst hai
        rw [Function.update_same] at ha
        exact PC.noConfusion ha
      · rw [Function.update_noteq hai] at ha
        exfalso
        have h2 := exclU a i hai (pcWrite a ha)
        rw [pcWrite i hpc] at h2
        exact LockK.noConfusion h2
    · intro h
      exact Option.noConfusion h
    · intro v hv
      injection hv with hv'
      refine ⟨i, ?_, hv'.symm, ?_⟩
      · rw [Function.update_same]
      · intro j hj
        by_cases hji : j = i
        · exact hji
        · rw [Function.update_noteq hji] at hj
          rw [fileNone hfile j] at hj
          exact Bool.noConfusion hj
    · intro a w ha
      have h2 := obsSome a w ha
      rw [hfile] at h2
      exact Option.noConfusion h2
    · intro a ha
      by_cases hai : a = i
      · subst hai
        right
        rw [Function.update_same]
      · rcases obsNone a ha with hw | hw
        · left
          rw [Function.update_noteq hai]
          exact hw
        · right
          rw [Function.update_noteq hai]
          exact hw
    · intro a ha
      by_cases hai : a = i
      · subst hai
        exact hobsi
      · rw [Function.update_noteq hai] at ha
        exact wroteObs a ha
    · exact finObs_upd finObs (fun _ => by
        rw [hobsi]
        exact fun h => Option.noConfusion h)
    · intro a ha
      by_cases hai : a = i
      · subst hai
        left
        rw [Function.update_same]
      · rw [Function.update_noteq hai] at ha
        rcases wrotePC a ha with h | h
        · left
          rw [Function.update_noteq hai]
          exact h
        · right
          rw [Function.update_noteq hai]
          exact h
  | exitProc i s t hpc ht =>
    subst ht
    refine ⟨?_, ?_, ?_, ?_, ?_, ?_, ?_, ?_, ?_, ?_, ?_, ?_, ?_, ?_, ?_⟩ <;>
      (try dsimp only)
    · exact exclU_set_free exclU
    · exact upd_pc_lk PC.init LockK.free pcInit (fun h => PC.noConfusion h)
    · exact upd_pc_lk PC.sRead LockK.shared pcSRead (fun h => PC.noConfusion h)
    · exact upd_pc_lk PC.xWait LockK.free pcXWait (fun h => PC.noConfusion h)
    · exact upd_pc_lk PC.xRead LockK.excl pcXRead (fun h => PC.noConfusion h)
    · exact upd_pc_lk PC.doWrite LockK.excl pcWrite (fun h => PC.noConfusion h)
    · exact upd_pc_lk PC.done LockK.free pcDone (fun _ => rfl)
    · exact pending_upd pending (fun h => PC.noConfusion h)
    · exact fileNone
    · exact fileSome
    · exact obsSome
    · exact obsNone_upd_pc obsNone (fun h => by
        rw [hpc] at h
        exact PC.noConfusion h)
    · exact wroteObs
    · exact finObs_upd finObs (fun _ => finObs i (Or.inl hpc))
    · exact wrotePC_upd wrotePC (fun _ => Or.inr rfl)

theorem protoInv_init (n : Nat) (ids : Fin n → Nat) :
    ProtoInv n ids (initState n) := by
  constructor <;> intros <;> simp_all [initState]

theorem protoInv_reach {n : Nat} {ids : Fin n → Nat} {s : PState n}
    (h : ProtoReach n ids s) : ProtoInv n ids s := by
  unfold ProtoReach at h
  induction h with
  | refl => exact protoInv_init n ids
  | tail hr hs ih => exact protoInv_step ih hs

/-- Claim C1: in every complete interleaved execution of the protocol from a
fresh record, there is exactly one process that observed no identity and
performed the write; the final record holds its identifier, and every other
process observed exactly that identifier. -/
theorem first_writer_unique (n : Nat) (ids : Fin n → Nat) (hn : 0 < n)
    (s : PState n) (hr : ProtoReach n ids s)
    (hdone : ∀ i, s.pc i = PC.done) :
    ∃ w : Fin n, s.wrote w = true ∧ s.obs w = some none ∧
      s.file = some (ids w) ∧
      ∀ j, j ≠ w → s.wrote j = false ∧ s.obs j = some (some (ids w)) := by
  obtain ⟨exclU, pcInit, pcSRead, pcXWait, pcXRead, pcWrite, pcDone, pending,
    fileNone, fileSome, obsSome, obsNone, wroteObs, finObs, wrotePC⟩ :=
    protoInv_reach hr
  cases hfile : s.file with
  | none =>
    exfalso
    have hobs := finObs ⟨0, hn⟩ (Or.inr (hdone ⟨0, hn⟩))
    cases ho : s.obs ⟨0, hn⟩ with
    | none => exact hobs ho
    | some o =>
      cases o with
      | none =>
        rcases obsNone ⟨0, hn⟩ ho with hW | hW
        · rw [hdone ⟨0, hn⟩] at hW
          exact PC.noConfusion hW
        · rw [fileNone hfile ⟨0, hn⟩] at hW
          exact Bool.noConfusion hW
      | some v =>
        have h2 := obsSome ⟨0, hn⟩ v ho
        rw [hfile] at h2
        exact Option.noConfusion h2
  | some v =>
    rcases fileSome v hfile with ⟨w, hw, hv, huniq⟩
    refine ⟨w, hw, wroteObs w hw, congrArg _ hv, ?_⟩
    intro j hj
    have hwj : s.wrote j = false := by
      cases hwj : s.wrote j
      · rfl
      · exact absurd (huniq j hwj) hj
    refine ⟨hwj, ?_⟩
    have hobs := finObs j (Or.inr (hdone j))
    cases ho : s.obs j with
    | none => exact absurd ho hobs
    | some o =>
      cases o with
      | none =>
        exfalso
        rcases obsNone j ho with hW | hW
        · rw [hdone j] at hW
          exact PC.noConfusion hW
        · rw [hwj] at hW
          exact Bool.noConfusion hW
      | some u =>
        have h2 := obsSome j u ho
        rw [hfile] at h2
        injection h2 with h3
        rw [h3.symm.trans hv]

/-- Witness for C1: a complete one-process execution writing identifier 42. -/
theorem first_writer_unique_witness :
    ∃ w : Fin 1, demoFinal.wrote w = true ∧ demoFinal.obs w = some none ∧
      demoFinal.file = some (demoIds w) ∧
      ∀ j, j ≠ w → demoFinal.wrote j = false ∧
        demoFinal.obs j = some (some (demoIds w)) := by
  have h1 : Step 1 demoIds (initState 1)
      ⟨none, fun _ => LockK.shared, fun _ => PC.sRead, fun _ => none,
       fun _ => false⟩ :=
    Step.lockShared 0 _ _ (by decide) (by decide) (by
      unfold initState
      congr 1 <;> (try funext j) <;> (try fin_cases j) <;> rfl)
  have h2 : Step 1 demoIds
      ⟨none, fun _ => LockK.shared, fun _ => PC.sRead, fun _ => none,
       fun _ => false⟩
      ⟨none, fun _ => LockK.free, fun _ => PC.xWait, fun _ => none,
       fun _ => false⟩ :=
    Step.sReadNone 0 _ _ (by decide) (by decide) (by
      congr 1 <;> (try funext j) <;> (try fin_cases j) <;> rfl)
  have h3 : Step 1 demoIds
      ⟨none, fun _ => LockK.free, fun _ => PC.xWait, fun _ => none,
       fun _ => false⟩
      ⟨none, fun _ => LockK.excl, fun _ => PC.xRead, fun _ => none,
       fun _ => false⟩ :=
    Step.lockExcl 0 _ _ (by decide) (by decide) (by
      congr 1 <;> (try funext j) <;> (try fin_cases j) <;> rfl)
  have h4 : Step 1 demoIds
      ⟨none, fun _ => LockK.excl, fun _ => PC.xRead, fun _ => none,
       fun _ => false⟩
      ⟨none, fun _ => LockK.excl, fun _ => PC.doWrite, fun _ => some none,
       fun _ => false⟩ :=
    Step.xReadNone 0 _ _ (by decide) (by decide) (by
      congr 1 <;> (try funext j) <;> (try fin_cases j) <;> rfl)
  have h5 : Step 1 demoIds
      ⟨none, fun _ => LockK.excl, fun _ => PC.doWrite, fun _ => some none,
       fun _ => false⟩
      ⟨some 42, fun _ => LockK.excl, fun _ => PC.finish, fun _ => some none,
       fun _ => true⟩ :=
    Step.writeId 0 _ _ (by decide) (by
      congr 1 <;> (try funext j) <;> (try fin_cases j) <;> rfl)
  have h6 : Step 1 demoIds
      ⟨some 42, fun _ => LockK.excl, fun _ => PC.finish, fun _ => some none,
       fun _ => true⟩
      demoFinal :=
    Step.exitProc 0 _ _ (by decide) (by
      unfold demoFinal
      congr 1 <;> (try funext j) <;> (try fin_cases j) <;> rfl)
  have hr : ProtoReach 1 demoIds demoFinal :=
    Relation.ReflTransGen.tail
      (Relation.ReflTransGen.tail
        (Relation.ReflTransGen.tail
          (Relation.ReflTransGen.tail
            (Relation.ReflTransGen.tail
              (Relation.ReflTransGen.tail Relation.ReflTransGen.refl h1)
              h2)
            h3)
          h4)
        h5)
      h6
  exact first_writer_unique 1 demoIds (by decide) demoFinal hr (by decide)
